import Mathlib

/-!
Verification of the native pretty-printer in `src/print/native.rs`.

The printer walks a decoded result-value tree and calls into a
caller-supplied `Formatter` backend.  The engine itself contains no
failure point: every `?` in the Rust code propagates an error returned
by a formatter method, and with a formatter whose methods all succeed
the render is exactly the sequence of formatter calls made.  We
therefore embed the engine as a pure, total trace semantics
`Value.format : Cfg → Value → List Event`, where `Cfg` holds the three
formatter queries (`max_items`, `expand_strings`, `implicit_properties`)
and `Event` records each emission call in order.

Scalar payloads that the printer treats as opaque display text
(floats, temporals, json, uuid) are carried as that text; `BigInt`
is carried as a mathematical integer (the Rust code immediately takes
its base-10 string), and `Decimal` as its `BigDecimal` display text
(the Rust code immediately takes `value.to_string()`).
-/

namespace EdgedbPrint

/-- One `ShapeElement` of an `ObjectShape` / `NamedTupleShape`
(name, `flag_implicit`, `flag_link_property`), as consumed by
`native.rs`. -/
structure ShapeElement where
  name : String
  flag_implicit : Bool
  flag_link_property : Bool
deriving DecidableEq, Repr

/-- The closed `Value` union of `edgedb_protocol::value::Value`, restricted
to the structure `native.rs` inspects.  `Object` fields are optional values
(`Vec<Option<Value>>` in the protocol), `NamedTuple` fields are plain
values. -/
inductive Value where
  | nothing
  | uuid (u : String)
  | str (s : String)
  | bytes (b : List Nat)
  | int16 (v : Int)
  | int32 (v : Int)
  | int64 (v : Int)
  | float32 (txt : String)
  | float64 (txt : String)
  | bigint (v : Int)
  | decimal (txt : String)
  | bool (b : Bool)
  | datetime (txt : String)
  | localDatetime (txt : String)
  | localDate (txt : String)
  | localTime (txt : String)
  | duration (txt : String)
  | json (txt : String)
  | set (items : List Value)
  | object (shape : List ShapeElement) (fields : List (Option Value))
  | tuple (items : List Value)
  | namedTuple (shape : List ShapeElement) (fields : List Value)
  | array (items : List Value)
  | enum (v : String)

/-- Styling applied to an object-field label before it is passed to
`object_field`: `.light_blue().bold()` on the plain path and the id
fallback, `.rgb(0, 0xa5, 0xcb).bold()` on the link-property path. -/
inductive LabelStyle where
  | lightBlueBold
  | linkRgbBold
deriving DecidableEq, Repr

/-- One formatter call made by the rendering engine, in call order.
Scoped container methods (`set`, `array`, `tuple`, `named_tuple`,
`object`) are recorded as a matching open/close pair around their
body's events. -/
inductive Event where
  | const_scalar (s : String)
  | typed (type_name : String) (s : String)
  | nilMarker
  | openSet
  | closeSet
  | openArray
  | closeArray
  | openTuple
  | closeTuple
  | openNamedTuple
  | closeNamedTuple
  | openObject (type_name : Option String)
  | closeObject
  | object_field (label : String) (style : LabelStyle)
  | tuple_field (name : String)
  | comma
  | ellipsis
deriving DecidableEq, Repr

/-- The formatter queries the engine consults: `max_items()`,
`expand_strings()`, `implicit_properties()`. -/
structure Cfg where
  max_items : Option Nat
  expand_strings : Bool
  implicit_properties : Bool
deriving Repr

/-! ## Scalar canonicalization (`format_string`, `format_bytes`,
`format_bigint`, `format_decimal`) -/

/-- Lowercase hex digit, as produced by Rust's `{:x}` formatting. -/
def hexDigit (n : Nat) : Char :=
  if n < 10 then Char.ofNat (48 + n) else Char.ofNat (87 + n)

/-- Two-digit lowercase hex, Rust `{:02x}` (for values below 0x100). -/
def hex2 (n : Nat) : String :=
  String.mk [hexDigit (n / 16 % 16), hexDigit (n % 16)]

/-- Four-digit lowercase hex, Rust `{:04x}` (for values below 0x10000). -/
def hex4 (n : Nat) : String :=
  String.mk [hexDigit (n / 4096 % 16), hexDigit (n / 256 % 16),
             hexDigit (n / 16 % 16), hexDigit (n % 16)]

/-- The per-character match arm of `format_string` in `native.rs`,
in source order.  Rust `char` range patterns are modelled on the
character's scalar value. -/
def escape_char (expanded : Bool) (c : Char) : String :=
  if c.toNat ≤ 0x08 ∨ c.toNat = 0x0B ∨ c.toNat = 0x0C ∨
     (0x0E ≤ c.toNat ∧ c.toNat ≤ 0x1F) ∨ c.toNat = 0x7F then
    "\\x" ++ hex2 c.toNat
  else if 0x80 ≤ c.toNat ∧ c.toNat ≤ 0x9F then
    "\\u" ++ hex4 c.toNat
  else if c.toNat = 39 then
    "\\'"
  else if c.toNat = 92 then
    "\\\\"
  else if c.toNat = 13 ∧ expanded = false then
    "\\r"
  else if c.toNat = 10 ∧ expanded = false then
    "\\n"
  else if c.toNat = 9 ∧ expanded = false then
    "\\t"
  else
    String.singleton c

/-- The character loop of `format_string`: the escape of each character
pushed onto the buffer in order. -/
def escBody (expanded : Bool) : List Char → List Char
  | [] => []
  | c :: cs => (escape_char expanded c).data ++ escBody expanded cs

/-- `format_string` from `native.rs`: single-quote delimiters around the
escaped characters. -/
def format_string (s : String) (expanded : Bool) : String :=
  "'" ++ String.mk (escBody expanded s.data) ++ "'"

/-- The per-byte match arm of `format_bytes` in `native.rs`, in source
order. -/
def escape_byte (b : Nat) : String :=
  if b ≤ 0x08 ∨ b = 0x0B ∨ b = 0x0C ∨
     (0x0E ≤ b ∧ b ≤ 0x1F) ∨ (0x7F ≤ b ∧ b ≤ 0xFF) then
    "\\x" ++ hex2 b
  else if b = 39 then "\\'"
  else if b = 13 then "\\r"
  else if b = 10 then "\\n"
  else if b = 9 then "\\t"
  else if b = 92 then "\\\\"
  else String.singleton (Char.ofNat b)

/-- `format_bytes` from `native.rs`. -/
def format_bytes (bytes : List Nat) : String :=
  "b'" ++ String.mk ((bytes.map (fun b => (escape_byte b).data)).flatten) ++ "'"

/-- The body of `format_bigint` from `native.rs`, applied to
`bint.to_string()`.  Rust's `trim_end_matches('0')` is the reverse
`dropWhile`; `zeros` is the length difference (all characters involved
are ASCII, so Rust byte lengths equal character counts). -/
def format_bigint_txt (txt : String) : String :=
  if txt.data.length - ((txt.data.reverse.dropWhile (fun c => c = '0')).reverse).length > 5 then
    String.mk ((txt.data.reverse.dropWhile (fun c => c = '0')).reverse)
      ++ "e"
      ++ toString (txt.data.length - ((txt.data.reverse.dropWhile (fun c => c = '0')).reverse).length)
      ++ "n"
  else
    txt ++ "n"

/-- `format_bigint` from `native.rs`: canonicalize the base-10 text of
the arbitrary-precision integer. -/
def format_bigint (bint : Int) : String :=
  format_bigint_txt (toString bint)

/-- `format_decimal` from `native.rs`, applied to `value.to_string()`
(the `BigDecimal` display text, passed in as `txt`).  `txt[2..]` is the
fractional part when `txt` starts with `"0."`; `trim_start_matches('0')`
is `dropWhile`; Rust byte lengths equal character counts on this ASCII
text. -/
def format_decimal (txt : String) : String :=
  if txt.data.contains '.' then
    if txt.data.take 7 = "0.00000".data then
      "0." ++ String.mk ((txt.data.drop 2).dropWhile (fun c => c = '0'))
        ++ "e-"
        ++ toString ((txt.data.length - 2) - ((txt.data.drop 2).dropWhile (fun c => c = '0')).length)
    else
      txt ++ "n"
  else
    if txt.data.length - ((txt.data.reverse.dropWhile (fun c => c = '0')).reverse).length > 5 then
      String.mk ((txt.data.reverse.dropWhile (fun c => c = '0')).reverse)
        ++ ".0e"
        ++ toString (txt.data.length - ((txt.data.reverse.dropWhile (fun c => c = '0')).reverse).length)
        ++ "n"
    else
      txt ++ ".0n"

/-! ## The recursive rendering engine (`impl FormatExt for Value`) -/

/-- The `type_name` scan at the top of the `Object` arm:
`shape.elements.iter().zip(fields).find(|(f, _)| f.name == "__tname__")`
followed by `and_then` checking the found pair's value for `Str`.
The recursion consumes both lists in step, stopping at the first field
named `__tname__` (or when either list runs out, as `zip` does). -/
def type_name_of : List ShapeElement → List (Option Value) → Option String
  | [], _ => none
  | _ :: _, [] => none
  | fld :: fs, value :: vs =>
    if fld.name = "__tname__" then
      match value with
      | some (Value.str t) => some t
      | _ => none
    else type_name_of fs vs

/-- The label passed to `object_field` on the main loop path:
`"@"`-prefixed and rgb-styled for a link property, plain light-blue
for a regular field. -/
def fieldLabel (fld : ShapeElement) : Event :=
  if fld.flag_link_property then
    Event.object_field ("@" ++ fld.name) LabelStyle.linkRgbBold
  else
    Event.object_field fld.name LabelStyle.lightBlueBold

mutual

/-- `<Value as FormatExt>::format` from `native.rs` as a trace
semantics: the ordered list of formatter calls the walk makes against a
formatter whose queries answer per `cfg` and whose methods all succeed. -/
def Value.format (cfg : Cfg) : Value → List Event
  | Value.nothing => [Event.const_scalar "Nothing"]
  | Value.uuid u => [Event.const_scalar u]
  | Value.str s => [Event.const_scalar (format_string s cfg.expand_strings)]
  | Value.bytes b => [Event.const_scalar (format_bytes b)]
  | Value.int16 v => [Event.const_scalar (toString v)]
  | Value.int32 v => [Event.const_scalar (toString v)]
  | Value.int64 v => [Event.const_scalar (toString v)]
  | Value.float32 t => [Event.const_scalar t]
  | Value.float64 t => [Event.const_scalar t]
  | Value.bigint v => [Event.const_scalar (format_bigint v)]
  | Value.decimal t => [Event.const_scalar (format_decimal t)]
  | Value.bool b => [Event.const_scalar (toString b)]
  | Value.datetime t => [Event.typed "datetime" t]
  | Value.localDatetime t => [Event.typed "cal::local_datetime" t]
  | Value.localDate t => [Event.typed "cal::local_date" t]
  | Value.localTime t => [Event.typed "cal::local_time" t]
  | Value.duration t => [Event.typed "duration" t]
  | Value.json t => [Event.const_scalar t]
  | Value.set items =>
      Event.openSet ::
        ((match cfg.max_items with
          | some limit =>
              takeBody cfg limit items ++
                (if limit < items.length then [Event.ellipsis] else [])
          | none => eachBody cfg items) ++ [Event.closeSet])
  | Value.object shape fields =>
      Event.openObject (type_name_of shape fields) ::
        ((objectLoop cfg shape fields).1 ++
         (if (objectLoop cfg shape fields).2 = 0 then
            idFallback cfg shape fields
          else []) ++ [Event.closeObject])
  | Value.tuple items =>
      Event.openTuple :: (eachBody cfg items ++ [Event.closeTuple])
  | Value.namedTuple shape fields =>
      Event.openNamedTuple ::
        (namedTupleBody cfg shape fields ++ [Event.closeNamedTuple])
  | Value.array items =>
      Event.openArray ::
        ((match cfg.max_items with
          | some limit =>
              takeBody cfg limit items ++
                (if limit < items.length then [Event.ellipsis] else [])
          | none => eachBody cfg items) ++ [Event.closeArray])
  | Value.enum v => [Event.const_scalar v]

/-- The capped loop `for item in &items[..min(limit, items.len())]`
of the `Set`/`Array` arms: render and `comma()` each of the first
`limit` items. -/
def takeBody (cfg : Cfg) : Nat → List Value → List Event
  | _, [] => []
  | 0, _ :: _ => []
  | n + 1, item :: rest =>
      Value.format cfg item ++ [Event.comma] ++ takeBody cfg n rest

/-- The uncapped loop `for item in items`: render and `comma()` every
item. -/
def eachBody (cfg : Cfg) : List Value → List Event
  | [] => []
  | item :: rest => Value.format cfg item ++ [Event.comma] ++ eachBody cfg rest

/-- `impl FormatExt for Option<Value>`: recurse on `Some`, emit the nil
marker on `None`. -/
def OptionValue.format (cfg : Cfg) : Option Value → List Event
  | some v => Value.format cfg v
  | none => [Event.nilMarker]

/-- The main `Object` field loop: for each zipped (descriptor, value)
pair, render the labelled field unless it is implicit and
`implicit_properties()` is false; returns the events and the count `n`
of rendered fields.  Like Rust's `zip`, it stops when either list runs
out. -/
def objectLoop (cfg : Cfg) :
    List ShapeElement → List (Option Value) → List Event × Nat
  | [], _ => ([], 0)
  | _ :: _, [] => ([], 0)
  | fld :: fs, value :: vs =>
      if !fld.flag_implicit || cfg.implicit_properties then
        (fieldLabel fld ::
          (OptionValue.format cfg value ++ [Event.comma] ++
            (objectLoop cfg fs vs).1),
         (objectLoop cfg fs vs).2 + 1)
      else objectLoop cfg fs vs

/-- The `n == 0` fallback of the `Object` arm:
`shape.elements.iter().zip(fields).find(|(f, _)| f.name == "id")`, and
if found, one plain-styled label, the value, and a `comma()`. -/
def idFallback (cfg : Cfg) :
    List ShapeElement → List (Option Value) → List Event
  | [], _ => []
  | _ :: _, [] => []
  | fld :: fs, value :: vs =>
      if fld.name = "id" then
        Event.object_field fld.name LabelStyle.lightBlueBold ::
          (OptionValue.format cfg value ++ [Event.comma])
      else idFallback cfg fs vs

/-- The `NamedTuple` loop: `tuple_field(name)`, the value, `comma()`,
for each zipped pair. -/
def namedTupleBody (cfg : Cfg) :
    List ShapeElement → List Value → List Event
  | [], _ => []
  | _ :: _, [] => []
  | fld :: fs, value :: vs =>
      Event.tuple_field fld.name ::
        (Value.format cfg value ++ [Event.comma] ++
          namedTupleBody cfg fs vs)

end

/-! ## Spec-side definitions (stated from the claims, for comparison) -/

/-- The decimal canonicalization described by the spec, stated with
`takeWhile`-counts of stripped zeros: fractional values beginning with
`0.00000` compress the leading fractional zeros into a negative
exponent (no trailing `n`); other fractional values get a plain `n`
suffix; integral values strip trailing zeros into an exponent when more
than 5 were stripped, else get `.0n`. -/
def canonDecimalSpec (txt : String) : String :=
  if txt.data.contains '.' then
    if txt.data.take 7 = "0.00000".data then
      "0." ++ String.mk ((txt.data.drop 2).dropWhile (fun c => c = '0'))
        ++ "e-"
        ++ toString ((txt.data.drop 2).takeWhile (fun c => c = '0')).length
    else
      txt ++ "n"
  else
    if (txt.data.reverse.takeWhile (fun c => c = '0')).length > 5 then
      String.mk ((txt.data.reverse.dropWhile (fun c => c = '0')).reverse)
        ++ ".0e"
        ++ toString (txt.data.reverse.takeWhile (fun c => c = '0')).length
        ++ "n"
    else
      txt ++ ".0n"

/-- The bigint canonicalization described by the spec, stated with the
`takeWhile`-count of trailing zeros of the base-10 digit string: if
more than 5 trailing zeros were stripped, digits-without-zeros followed
by `e`, the count, and `n`; otherwise the full digit string followed by
`n`. -/
def canonBigIntSpec (txt : String) : String :=
  if (txt.data.reverse.takeWhile (fun c => c = '0')).length > 5 then
    String.mk ((txt.data.reverse.dropWhile (fun c => c = '0')).reverse)
      ++ "e"
      ++ toString (txt.data.reverse.takeWhile (fun c => c = '0')).length
      ++ "n"
  else
    txt ++ "n"

/-- The per-character mapping as the spec states it: control ranges to
`\xHH`, `0x80`–`0x9F` to `\uHHHH`, quote and backslash to their escapes,
and carriage return / newline / tab escaped exactly when `expanded` is
false, passed through literally when it is true; everything else
unchanged. -/
def escapeCharSpec (expanded : Bool) (c : Char) : String :=
  if c.toNat ≤ 8 ∨ c.toNat = 11 ∨ c.toNat = 12 ∨
     (14 ≤ c.toNat ∧ c.toNat ≤ 31) ∨ c.toNat = 127 then
    "\\x" ++ hex2 c.toNat
  else if 128 ≤ c.toNat ∧ c.toNat ≤ 159 then
    "\\u" ++ hex4 c.toNat
  else if c.toNat = 39 then "\\'"
  else if c.toNat = 92 then "\\\\"
  else if c.toNat = 13 then (if expanded then String.singleton c else "\\r")
  else if c.toNat = 10 then (if expanded then String.singleton c else "\\n")
  else if c.toNat = 9 then (if expanded then String.singleton c else "\\t")
  else String.singleton c

/-- The whole escape as the spec states it: a single-quote pair around
the per-character escapes. -/
def escapeStringSpec (s : String) (expanded : Bool) : String :=
  "'" ++ String.mk ((s.data.map (fun c => (escapeCharSpec expanded c).data)).flatten) ++ "'"

/-- The printable-text alphabet of the spec: at or above the space
character, and none of the characters the escape rewrites to `\xHH` or
`\uHHHH` forms (`0x7F`, `0x80`–`0x9F`). -/
def printableChar (c : Char) : Prop :=
  32 ≤ c.toNat ∧ c.toNat ≠ 127 ∧ ¬(128 ≤ c.toNat ∧ c.toNat ≤ 159)

instance (c : Char) : Decidable (printableChar c) :=
  inferInstanceAs (Decidable (_ ∧ _ ∧ _))

/-- A decoder that inverts the escape on its printable image: an
explicit left inverse witnessing unique decodability of the escape
sequences. -/
def unescapeBody : List Char → Option (List Char)
  | [] => some []
  | c :: rest =>
    if c = '\\' then
      match rest with
      | [] => none
      | d :: rest2 =>
        if d = '\'' then (unescapeBody rest2).map (fun l => '\'' :: l)
        else if d = '\\' then (unescapeBody rest2).map (fun l => '\\' :: l)
        else none
    else (unescapeBody rest).map (fun l => c :: l)

/-- The type name as the code actually determines it: the FIRST zipped
pair whose field is named `__tname__` decides — its value yields the
name only if it is a `Str`; a later `__tname__` field is never
consulted. -/
def tnameSpec (shape : List ShapeElement) (fields : List (Option Value)) : Option String :=
  match (shape.zip fields).find? (fun p => p.1.name == "__tname__") with
  | some (_, some (Value.str t)) => some t
  | _ => none

/-! ## Shared helper lemmas -/

/-- Removing the longest matching prefix (`dropWhile`) removes exactly
`takeWhile`-many elements. -/
theorem length_sub_length_dropWhile {α} (p : α → Bool) (l : List α) :
    l.length - (l.dropWhile p).length = (l.takeWhile p).length := by
  have h := congrArg List.length (List.takeWhile_append_dropWhile (p := p) (l := l))
  rw [List.length_append] at h
  omega

/-- Characters are equal exactly when their scalar values are. -/
theorem char_eq_iff_toNat {c d : Char} : c = d ↔ c.toNat = d.toNat := by
  constructor
  · intro h; rw [h]
  · intro h
    have h2 := congrArg Char.ofNat h
    rwa [Char.ofNat_toNat, Char.ofNat_toNat] at h2

/-! ## C2: decimal canonicalization -/

/-- The count of characters stripped from the end, computed as the
source's length difference, equals the `takeWhile`-count of trailing
matches. -/
theorem trailing_strip_count (p : Char → Bool) (l : List Char) :
    l.length - ((l.reverse.dropWhile p).reverse).length =
      (l.reverse.takeWhile p).length := by
  calc l.length - ((l.reverse.dropWhile p).reverse).length
      = l.reverse.length - (l.reverse.dropWhile p).length := by
        rw [List.length_reverse, List.length_reverse]
    _ = (l.reverse.takeWhile p).length := length_sub_length_dropWhile p l.reverse

/-- C2: `format_decimal` realises exactly the case analysis of the
spec (`canonDecimalSpec`); in particular the text `0.0000001` renders
as `0.1e-6` (no trailing `n`) and `10.5` renders as `10.5n`. -/
theorem format_decimal_spec_correct :
    (∀ txt : String, format_decimal txt = canonDecimalSpec txt)
    ∧ format_decimal "0.0000001" = "0.1e-6"
    ∧ format_decimal "10.5" = "10.5n" := by
  refine ⟨fun txt => ?_, by decide, by decide⟩
  unfold format_decimal canonDecimalSpec
  have key1 : (txt.data.length - 2) -
      ((txt.data.drop 2).dropWhile (fun c => c = '0')).length =
      ((txt.data.drop 2).takeWhile (fun c => c = '0')).length := by
    have h := length_sub_length_dropWhile (fun c => decide (c = '0')) (txt.data.drop 2)
    rw [List.length_drop] at h
    exact h
  have key2 := trailing_strip_count (fun c => decide (c = '0')) txt.data
  rw [key1, key2]

/-! ## C3: bigint canonicalization -/

/-- C3: `format_bigint` realises exactly the trailing-zero compression
of the spec on the value's base-10 text; in particular 1230000000
renders as `123e7n` and 100000 (only 5 zeros, not more) renders as
`100000n`. -/
theorem format_bigint_spec_correct :
    (∀ bint : Int, format_bigint bint = canonBigIntSpec (toString bint))
    ∧ format_bigint 1230000000 = "123e7n"
    ∧ format_bigint 100000 = "100000n" := by
  refine ⟨fun bint => ?_, by decide, by decide⟩
  show format_bigint_txt (toString bint) = canonBigIntSpec (toString bint)
  generalize toString bint = txt
  unfold format_bigint_txt canonBigIntSpec
  rw [trailing_strip_count (fun c => decide (c = '0')) txt.data]

/-! ## C4: the string escape table -/

/-- The source's per-character match agrees with the spec's table at
every character and flag. -/
theorem escape_char_eq_spec (e : Bool) (c : Char) :
    escape_char e c = escapeCharSpec e c := by
  unfold escape_char escapeCharSpec
  cases e <;> split_ifs <;> first | rfl | omega | simp_all

/-- The character loop agrees with mapping the spec table over the
characters. -/
theorem escBody_eq_spec (e : Bool) (l : List Char) :
    escBody e l = ((l.map (fun c => (escapeCharSpec e c).data)).flatten) := by
  induction l with
  | nil => rfl
  | cons c cs ih => simp [escBody, escape_char_eq_spec, ih]

/-- C4: `format_string` wraps in single quotes and maps each character
exactly per the spec's escape table (`escapeCharSpec`). -/
theorem format_string_escape_table_correct (s : String) (expanded : Bool) :
    format_string s expanded = escapeStringSpec s expanded := by
  unfold format_string escapeStringSpec
  rw [escBody_eq_spec]

/-! ## C9: delimiters and injectivity of the escape -/

/-- On printable characters the escape reduces to the quote and
backslash cases plus identity. -/
theorem escape_char_of_printable (e : Bool) (c : Char) (h : printableChar c) :
    escape_char e c =
      if c.toNat = 39 then "\\'"
      else if c.toNat = 92 then "\\\\"
      else String.singleton c := by
  obtain ⟨h1, h2, h3⟩ := h
  unfold escape_char
  rw [if_neg (by omega), if_neg (by omega)]
  by_cases h39 : c.toNat = 39
  · rw [if_pos h39, if_pos h39]
  · rw [if_neg h39, if_neg h39]
    by_cases h92 : c.toNat = 92
    · rw [if_pos h92, if_pos h92]
    · rw [if_neg h92, if_neg h92,
        if_neg (by rintro ⟨hc, -⟩; omega),
        if_neg (by rintro ⟨hc, -⟩; omega),
        if_neg (by rintro ⟨hc, -⟩; omega)]

/-- The decoder is a left inverse of the escape loop on printable
text. -/
theorem unescape_escBody (e : Bool) :
    ∀ l : List Char, (∀ c ∈ l, printableChar c) →
      unescapeBody (escBody e l) = some l := by
  intro l
  induction l with
  | nil => intro _; rfl
  | cons c cs ih =>
    intro h
    have hc := h c (List.mem_cons_self c cs)
    have hcs : ∀ x ∈ cs, printableChar x :=
      fun x hx => h x (List.mem_cons_of_mem _ hx)
    have hbody : escBody e (c :: cs) = (escape_char e c).data ++ escBody e cs := rfl
    rw [hbody, escape_char_of_printable e c hc]
    by_cases h39 : c.toNat = 39
    · have hcq : c = '\'' := char_eq_iff_toNat.mpr h39
      rw [if_pos h39, hcq]
      show unescapeBody ('\\' :: '\'' :: escBody e cs) = some ('\'' :: cs)
      simp [unescapeBody, ih hcs]
    · rw [if_neg h39]
      by_cases h92 : c.toNat = 92
      · have hcb : c = '\\' := char_eq_iff_toNat.mpr h92
        rw [if_pos h92, hcb]
        show unescapeBody ('\\' :: '\\' :: escBody e cs) = some ('\\' :: cs)
        simp [unescapeBody, ih hcs]
      · have hne : c ≠ '\\' := fun hh => h92 (by rw [hh]; rfl)
        rw [if_neg h92]
        show unescapeBody (c :: escBody e cs) = some (c :: cs)
        rw [unescapeBody.eq_def]
        simp [hne, ih hcs]

/-- The characters of `format_string`'s output. -/
theorem format_string_data (s : String) (e : Bool) :
    (format_string s e).data = '\'' :: (escBody e s.data ++ ['\'']) := by
  unfold format_string
  rw [String.data_append, String.data_append]
  rfl

/-- C9: `format_string` always opens and closes with a single-quote
delimiter, and is injective on strings over the printable-text
alphabet for each fixed `expanded` flag. -/
theorem format_string_delimited_injective (expanded : Bool) :
    (∀ s : String,
      (format_string s expanded).data.head? = some '\'' ∧
      (format_string s expanded).data.getLast? = some '\'')
    ∧ (∀ s1 s2 : String,
        (∀ c ∈ s1.data, printableChar c) →
        (∀ c ∈ s2.data, printableChar c) →
        format_string s1 expanded = format_string s2 expanded → s1 = s2) := by
  constructor
  · intro s
    rw [format_string_data]
    refine ⟨rfl, ?_⟩
    have hsplit : '\'' :: (escBody expanded s.data ++ ['\'']) =
        ('\'' :: escBody expanded s.data) ++ ['\''] := rfl
    rw [hsplit, List.getLast?_concat]
  · intro s1 s2 h1 h2 heq
    have hd := congrArg String.data heq
    rw [format_string_data, format_string_data] at hd
    have hbodies : escBody expanded s1.data ++ ['\''] =
        escBody expanded s2.data ++ ['\''] := by
      exact (List.cons.injEq _ _ _ _).mp hd |>.2
    have hb : escBody expanded s1.data = escBody expanded s2.data :=
      List.append_cancel_right hbodies
    have u1 := unescape_escBody expanded s1.data h1
    have u2 := unescape_escBody expanded s2.data h2
    rw [hb, u2] at u1
    exact String.ext (Option.some.injEq _ _ ▸ u1).symm

/-- Witness for C9 at a concrete printable input. -/
theorem format_string_delimited_injective_witness :
    (∀ c ∈ ("a'b" : String).data, printableChar c) ∧ ("a'b" : String) = "a'b" :=
  ⟨by decide,
   (format_string_delimited_injective false).2 "a'b" "a'b"
     (by decide) (by decide) rfl⟩

/-! ## Container-trace lemmas -/

/-- The capped loop renders exactly the first `n` items, each followed
by one `comma()`. -/
theorem takeBody_eq (cfg : Cfg) (n : Nat) (items : List Value) :
    takeBody cfg n items =
      ((items.take n).map (fun v => Value.format cfg v ++ [Event.comma])).flatten := by
  induction items generalizing n with
  | nil => cases n <;> simp [takeBody]
  | cons v vs ih =>
    cases n with
    | zero => simp [takeBody]
    | succ m => simp [takeBody, List.take_succ_cons, ih]

/-- The uncapped loop renders every item, each followed by one
`comma()`. -/
theorem eachBody_eq (cfg : Cfg) (items : List Value) :
    eachBody cfg items =
      (items.map (fun v => Value.format cfg v ++ [Event.comma])).flatten := by
  induction items with
  | nil => simp [eachBody]
  | cons v vs ih => simp [eachBody, ih]

/-- The named-tuple loop renders every zipped pair: label, value,
`comma()`. -/
theorem namedTupleBody_eq (cfg : Cfg) (shape : List ShapeElement) (fields : List Value) :
    namedTupleBody cfg shape fields =
      ((shape.zip fields).map
        (fun p => Event.tuple_field p.1.name ::
          (Value.format cfg p.2 ++ [Event.comma]))).flatten := by
  induction shape generalizing fields with
  | nil => simp [namedTupleBody]
  | cons f fs ih =>
    cases fields with
    | nil => simp [namedTupleBody]
    | cons v vs => simp [namedTupleBody, List.zip_cons_cons, ih]

/-! ## C5: Set/Array truncation -/

/-- C5: with a cap `C`, a `Set` or `Array` renders exactly the first
`C` elements (all `N` when `C ≥ N`), each followed by one `comma()`,
then exactly one `ellipsis()` exactly when `C < N`; with no cap, all
elements render and no `ellipsis()` is emitted.  The final conjunct
shows at a nested concrete input that the cap is applied per container:
the truncated outer set does not exhaust a global budget, and the
inner set still renders its own capped element and its own ellipsis. -/
theorem set_array_truncation_correct (limit : Nat) (es ip : Bool) (items : List Value) :
    (Value.format ⟨some limit, es, ip⟩ (Value.set items) =
      Event.openSet ::
        (((items.take limit).map
            (fun v => Value.format ⟨some limit, es, ip⟩ v ++ [Event.comma])).flatten
          ++ (if limit < items.length then [Event.ellipsis] else [])
          ++ [Event.closeSet]))
    ∧ (Value.format ⟨some limit, es, ip⟩ (Value.array items) =
      Event.openArray ::
        (((items.take limit).map
            (fun v => Value.format ⟨some limit, es, ip⟩ v ++ [Event.comma])).flatten
          ++ (if limit < items.length then [Event.ellipsis] else [])
          ++ [Event.closeArray]))
    ∧ (Value.format ⟨none, es, ip⟩ (Value.set items) =
      Event.openSet ::
        ((items.map (fun v => Value.format ⟨none, es, ip⟩ v ++ [Event.comma])).flatten
          ++ [Event.closeSet]))
    ∧ (Value.format ⟨none, es, ip⟩ (Value.array items) =
      Event.openArray ::
        ((items.map (fun v => Value.format ⟨none, es, ip⟩ v ++ [Event.comma])).flatten
          ++ [Event.closeArray]))
    ∧ (Value.format ⟨some 1, false, false⟩
        (Value.set [Value.set [Value.nothing, Value.nothing],
                    Value.set [Value.nothing, Value.nothing]]) =
      [Event.openSet, Event.openSet, Event.const_scalar "Nothing", Event.comma,
       Event.ellipsis, Event.closeSet, Event.comma, Event.ellipsis,
       Event.closeSet]) := by
  refine ⟨?_, ?_, ?_, ?_, ?_⟩ <;>
    simp [Value.format, takeBody_eq, eachBody_eq, takeBody, eachBody]

/-! ## C6: Tuple/NamedTuple ignore the cap -/

/-- The rendered-and-comma'd element lists contribute exactly their
elements' own `ellipsis()` calls. -/
theorem count_ellipsis_each (cfg : Cfg) (items : List Value) :
    (((items.map (fun v => Value.format cfg v ++ [Event.comma])).flatten).count
        Event.ellipsis =
      (items.map (fun v => (Value.format cfg v).count Event.ellipsis)).sum) := by
  induction items with
  | nil => simp
  | cons v vs ih => simp [List.count_append, ih]

/-- Named-tuple bodies contribute exactly their field values' own
`ellipsis()` calls. -/
theorem count_ellipsis_namedTuple (cfg : Cfg) (pairs : List (ShapeElement × Value)) :
    ((pairs.map (fun p => Event.tuple_field p.1.name ::
        (Value.format cfg p.2 ++ [Event.comma]))).flatten).count Event.ellipsis =
      (pairs.map (fun p => (Value.format cfg p.2).count Event.ellipsis)).sum := by
  induction pairs with
  | nil => simp
  | cons p ps ih => simp [List.count_cons, List.count_append, ih]

/-- C6: a `Tuple` or `NamedTuple` renders all of its elements whatever
`max_items()` reports — the trace is the full element list for every
`cfg` — and the arms themselves never call `ellipsis()`: every
`ellipsis` event in the trace comes from inside an element. -/
theorem tuple_ignores_cap (cfg : Cfg) (items : List Value)
    (shape : List ShapeElement) (fields : List Value) :
    (Value.format cfg (Value.tuple items) =
      Event.openTuple ::
        ((items.map (fun v => Value.format cfg v ++ [Event.comma])).flatten
          ++ [Event.closeTuple]))
    ∧ (Value.format cfg (Value.namedTuple shape fields) =
      Event.openNamedTuple ::
        (((shape.zip fields).map
            (fun p => Event.tuple_field p.1.name ::
              (Value.format cfg p.2 ++ [Event.comma]))).flatten
          ++ [Event.closeNamedTuple]))
    ∧ ((Value.format cfg (Value.tuple items)).count Event.ellipsis =
        (items.map (fun v => (Value.format cfg v).count Event.ellipsis)).sum)
    ∧ ((Value.format cfg (Value.namedTuple shape fields)).count Event.ellipsis =
        ((shape.zip fields).map
          (fun p => (Value.format cfg p.2).count Event.ellipsis)).sum) := by
  refine ⟨?_, ?_, ?_, ?_⟩
  · simp [Value.format, eachBody_eq]
  · simp [Value.format, namedTupleBody_eq]
  · simp [Value.format, eachBody_eq, List.count_cons, List.count_append,
      count_ellipsis_each]
  · simp [Value.format, namedTupleBody_eq, List.count_cons, List.count_append,
      count_ellipsis_namedTuple]

/-! ## C1: shape/values length mismatch -/

/-- The object field loop only consumes the zipped common length. -/
theorem objectLoop_take (cfg : Cfg) :
    ∀ (fs : List ShapeElement) (vs : List (Option Value)),
      objectLoop cfg (fs.take vs.length) (vs.take fs.length) = objectLoop cfg fs vs := by
  intro fs
  induction fs with
  | nil => intro vs; simp [objectLoop]
  | cons f fs' ih =>
    intro vs
    cases vs with
    | nil => simp [objectLoop]
    | cons v vs' =>
      simp only [List.length_cons, List.take_succ_cons]
      simp [objectLoop, ih vs']

/-- The id fallback only consumes the zipped common length. -/
theorem idFallback_take (cfg : Cfg) :
    ∀ (fs : List ShapeElement) (vs : List (Option Value)),
      idFallback cfg (fs.take vs.length) (vs.take fs.length) = idFallback cfg fs vs := by
  intro fs
  induction fs with
  | nil => intro vs; simp [idFallback]
  | cons f fs' ih =>
    intro vs
    cases vs with
    | nil => simp [idFallback]
    | cons v vs' =>
      simp only [List.length_cons, List.take_succ_cons]
      simp [idFallback, ih vs']

/-- The type-name scan only consumes the zipped common length. -/
theorem type_name_of_take :
    ∀ (fs : List ShapeElement) (vs : List (Option Value)),
      type_name_of (fs.take vs.length) (vs.take fs.length) = type_name_of fs vs := by
  intro fs
  induction fs with
  | nil => intro vs; simp [type_name_of]
  | cons f fs' ih =>
    intro vs
    cases vs with
    | nil => simp [type_name_of]
    | cons v vs' =>
      simp only [List.length_cons, List.take_succ_cons]
      simp [type_name_of, ih vs']

/-- The named-tuple loop only consumes the zipped common length. -/
theorem namedTupleBody_take (cfg : Cfg) :
    ∀ (fs : List ShapeElement) (vs : List Value),
      namedTupleBody cfg (fs.take vs.length) (vs.take fs.length) =
        namedTupleBody cfg fs vs := by
  intro fs
  induction fs with
  | nil => intro vs; simp [namedTupleBody]
  | cons f fs' ih =>
    intro vs
    cases vs with
    | nil => simp [namedTupleBody]
    | cons v vs' =>
      simp only [List.length_cons, List.take_succ_cons]
      simp [namedTupleBody, ih vs']

/-- C1 (amended): the rendering engine never detects a shape/values
length mismatch — `zip` silently truncates, so the trace of an `Object`
or `NamedTuple` is unchanged when both sides are cut to the common
length; the extra descriptors or values are ignored and no defect is
reported. -/
theorem mismatch_truncates (cfg : Cfg) (shape : List ShapeElement)
    (ofields : List (Option Value)) (tfields : List Value) :
    (Value.format cfg (Value.object shape ofields) =
      Value.format cfg
        (Value.object (shape.take ofields.length) (ofields.take shape.length)))
    ∧ (Value.format cfg (Value.namedTuple shape tfields) =
      Value.format cfg
        (Value.namedTuple (shape.take tfields.length) (tfields.take shape.length))) := by
  constructor
  · simp [Value.format, objectLoop_take, idFallback_take, type_name_of_take]
  · simp [Value.format, namedTupleBody_take]

/-- C1 (counterexample to the claim as stated): an `Object` whose shape
has one field descriptor but whose value sequence is empty renders
successfully to a complete, well-delimited trace — no defect is raised,
the extra descriptor is silently dropped; likewise for `NamedTuple`. -/
theorem mismatch_no_failure_cex :
    (Value.format ⟨none, false, false⟩
        (Value.object [⟨"a", false, false⟩] []) =
      [Event.openObject none, Event.closeObject])
    ∧ (Value.format ⟨none, false, false⟩
        (Value.namedTuple [⟨"a", false, false⟩] []) =
      [Event.openNamedTuple, Event.closeNamedTuple]) := by
  constructor <;>
    simp [Value.format, type_name_of, objectLoop, idFallback, namedTupleBody]

/-! ## C7 and C10: the object implicit-field policy and id fallback -/

/-- When every field is implicit and `implicit_properties()` is false,
the main object loop renders nothing. -/
theorem objectLoop_all_implicit (cfg : Cfg) (hip : cfg.implicit_properties = false) :
    ∀ (fs : List ShapeElement) (vs : List (Option Value)),
      (∀ f ∈ fs, f.flag_implicit = true) → objectLoop cfg fs vs = ([], 0) := by
  intro fs
  induction fs with
  | nil => intro vs _; simp [objectLoop]
  | cons f fs' ih =>
    intro vs hall
    cases vs with
    | nil => simp [objectLoop]
    | cons v vs' =>
      have hf : f.flag_implicit = true := hall f (List.mem_cons_self _ _)
      have h' := ih vs' (fun x hx => hall x (List.mem_cons_of_mem _ hx))
      simp [objectLoop, hf, hip, h']

/-- When a field named `id` exists (among the zipped pairs), the
fallback renders exactly that first pair: plain label, value,
`comma()`. -/
theorem idFallback_found (cfg : Cfg) :
    ∀ (fs : List ShapeElement) (vs : List (Option Value)),
      fs.length = vs.length → (∃ f ∈ fs, f.name = "id") →
      ∃ fld value, fld.name = "id" ∧ (fld, value) ∈ fs.zip vs ∧
        idFallback cfg fs vs =
          Event.object_field "id" LabelStyle.lightBlueBold ::
            (OptionValue.format cfg value ++ [Event.comma]) := by
  intro fs
  induction fs with
  | nil => intro vs _ hex; simp at hex
  | cons f fs' ih =>
    intro vs hlen hex
    cases vs with
    | nil => simp at hlen
    | cons v vs' =>
      by_cases hname : f.name = "id"
      · refine ⟨f, v, hname, by simp [List.zip_cons_cons], ?_⟩
        simp [idFallback, hname]
      · have hex' : ∃ x ∈ fs', x.name = "id" := by
          obtain ⟨x, hx, hxn⟩ := hex
          rcases List.mem_cons.mp hx with hxf | hxs
          · exact absurd (hxf ▸ hxn) hname
          · exact ⟨x, hxs, hxn⟩
        obtain ⟨fld, value, hn, hmem, heq⟩ := ih vs' (by simpa using hlen) hex'
        refine ⟨fld, value, hn, ?_, ?_⟩
        · rw [List.zip_cons_cons]
          exact List.mem_cons_of_mem _ hmem
        · simpa [idFallback, hname] using heq

/-- When no field is named `id`, the fallback renders nothing. -/
theorem idFallback_none (cfg : Cfg) :
    ∀ (fs : List ShapeElement) (vs : List (Option Value)),
      (∀ f ∈ fs, f.name ≠ "id") → idFallback cfg fs vs = [] := by
  intro fs
  induction fs with
  | nil => intro vs _; simp [idFallback]
  | cons f fs' ih =>
    intro vs hall
    cases vs with
    | nil => simp [idFallback]
    | cons v vs' =>
      have hf := hall f (List.mem_cons_self _ _)
      have h' := ih vs' (fun x hx => hall x (List.mem_cons_of_mem _ hx))
      simp [idFallback, hf, h']

/-- C7: for an object whose every field is implicit, rendered with
`implicit_properties()` false: if some field is named `id`, exactly one
field is rendered — that id field's label, value and `comma()`; if no
field is named `id`, the object body is empty. -/
theorem object_implicit_id_fallback (cfg : Cfg) (shape : List ShapeElement)
    (fields : List (Option Value)) (hip : cfg.implicit_properties = false)
    (hlen : shape.length = fields.length)
    (himp : ∀ f ∈ shape, f.flag_implicit = true) :
    ((∃ f ∈ shape, f.name = "id") →
      ∃ fld value, fld.name = "id" ∧ (fld, value) ∈ shape.zip fields ∧
        Value.format cfg (Value.object shape fields) =
          Event.openObject (type_name_of shape fields) ::
            (Event.object_field "id" LabelStyle.lightBlueBold ::
              (OptionValue.format cfg value ++ [Event.comma, Event.closeObject])))
    ∧ ((∀ f ∈ shape, f.name ≠ "id") →
      Value.format cfg (Value.object shape fields) =
        [Event.openObject (type_name_of shape fields), Event.closeObject]) := by
  have hloop := objectLoop_all_implicit cfg hip shape fields himp
  constructor
  · intro hex
    obtain ⟨fld, value, hn, hmem, heq⟩ := idFallback_found cfg shape fields hlen hex
    refine ⟨fld, value, hn, hmem, ?_⟩
    simp [Value.format, hloop, heq]
  · intro hnone
    simp [Value.format, hloop, idFallback_none cfg shape fields hnone]

/-- Witness for C7 at a concrete all-implicit object containing an
`id` field. -/
theorem object_implicit_id_fallback_witness :
    ((⟨none, false, false⟩ : Cfg).implicit_properties = false)
    ∧ (([⟨"x", true, false⟩, ⟨"id", true, false⟩] : List ShapeElement).length =
        ([some Value.nothing, some (Value.str "u")] : List (Option Value)).length)
    ∧ (∀ f ∈ ([⟨"x", true, false⟩, ⟨"id", true, false⟩] : List ShapeElement),
        f.flag_implicit = true)
    ∧ (∃ f ∈ ([⟨"x", true, false⟩, ⟨"id", true, false⟩] : List ShapeElement),
        f.name = "id")
    ∧ (∃ fld value, fld.name = "id" ∧
        (fld, value) ∈ ([⟨"x", true, false⟩, ⟨"id", true, false⟩] : List ShapeElement).zip
          [some Value.nothing, some (Value.str "u")] ∧
        Value.format ⟨none, false, false⟩
            (Value.object [⟨"x", true, false⟩, ⟨"id", true, false⟩]
              [some Value.nothing, some (Value.str "u")]) =
          Event.openObject (type_name_of [⟨"x", true, false⟩, ⟨"id", true, false⟩]
              [some Value.nothing, some (Value.str "u")]) ::
            (Event.object_field "id" LabelStyle.lightBlueBold ::
              (OptionValue.format ⟨none, false, false⟩ value ++
                [Event.comma, Event.closeObject]))) :=
  ⟨rfl, rfl, by decide, by decide,
   (object_implicit_id_fallback ⟨none, false, false⟩ _ _ rfl rfl (by decide)).1
     (by decide)⟩

/-! ## C8: object type-name resolution -/

/-- The source scan equals the first-`__tname__` description. -/
theorem type_name_of_eq_spec :
    ∀ (fs : List ShapeElement) (vs : List (Option Value)),
      type_name_of fs vs = tnameSpec fs vs := by
  intro fs
  induction fs with
  | nil => intro vs; simp [type_name_of, tnameSpec]
  | cons f fs' ih =>
    intro vs
    cases vs with
    | nil => simp [type_name_of, tnameSpec]
    | cons v vs' =>
      by_cases h : f.name = "__tname__"
      · rw [tnameSpec, List.zip_cons_cons,
          List.find?_cons_of_pos _ (by simp [h])]
        cases v with
        | none => simp [type_name_of, h]
        | some w => cases w <;> simp [type_name_of, h]
      · rw [tnameSpec, List.zip_cons_cons,
          List.find?_cons_of_neg _ (by simp [h])]
        simpa [type_name_of, h, tnameSpec] using ih vs'

/-- C8 (amended): the type name passed to `object()` is decided by the
first field named `__tname__` among the zipped shape/value pairs — the
string content when that first pair's value is a `Str`, and no type
name otherwise (later `__tname__` fields, even with `Str` values, are
ignored); the object is always opened with exactly this optional
name. -/
theorem type_name_first_tname (shape : List ShapeElement)
    (fields : List (Option Value)) :
    (type_name_of shape fields = tnameSpec shape fields)
    ∧ ∀ cfg : Cfg,
        (Value.format cfg (Value.object shape fields)).head? =
          some (Event.openObject (type_name_of shape fields)) := by
  refine ⟨type_name_of_eq_spec shape fields, fun cfg => ?_⟩
  simp [Value.format]

/-- C8 (counterexample to the claim as stated): a shape whose first
`__tname__` field carries a non-`Str` value and whose second
`__tname__` field carries `Str "T"` does contain a field literally
named `__tname__` with a `Str` value, yet the object is opened with NO
type name. -/
theorem type_name_not_any_tname_cex :
    (∃ p ∈ ([⟨"__tname__", false, false⟩, ⟨"__tname__", false, false⟩] :
          List ShapeElement).zip
        [some (Value.int16 0), some (Value.str "T")],
      p.1.name = "__tname__" ∧ p.2 = some (Value.str "T"))
    ∧ (Value.format ⟨none, false, false⟩
        (Value.object [⟨"__tname__", false, false⟩, ⟨"__tname__", false, false⟩]
          [some (Value.int16 0), some (Value.str "T")])).head? =
      some (Event.openObject none) := by
  constructor
  · refine ⟨(⟨"__tname__", false, false⟩, some (Value.str "T")), ?_, rfl, rfl⟩
    rw [List.zip_cons_cons, List.zip_cons_cons]
    exact List.mem_cons_of_mem _ (List.mem_cons_self _ _)
  · simp [Value.format, type_name_of]

/-! ## C10: the id fallback label is plain and unprefixed -/

/-- The fallback renders the first `id`-named zipped pair with the
plain label. -/
theorem idFallback_of_find (cfg : Cfg) :
    ∀ (fs : List ShapeElement) (vs : List (Option Value))
      (fld : ShapeElement) (value : Option Value),
      (fs.zip vs).find? (fun p => p.1.name == "id") = some (fld, value) →
      idFallback cfg fs vs =
        Event.object_field fld.name LabelStyle.lightBlueBold ::
          (OptionValue.format cfg value ++ [Event.comma]) := by
  intro fs
  induction fs with
  | nil => intro vs fld value h; simp at h
  | cons f fs' ih =>
    intro vs fld value h
    cases vs with
    | nil => simp at h
    | cons v vs' =>
      by_cases hname : f.name = "id"
      · rw [List.zip_cons_cons, List.find?_cons_of_pos _ (by simp [hname])] at h
        obtain ⟨hf, hv⟩ := Prod.mk.injEq .. ▸ Option.some.injEq .. ▸ h
        subst hf; subst hv
        simp [idFallback, hname]
      · rw [List.zip_cons_cons, List.find?_cons_of_neg _ (by simp [hname])] at h
        simpa [idFallback, hname] using ih vs' fld value h

/-- C10: when the id fallback fires, the label passed to
`object_field` is the bare field name in the plain light-blue style —
no `@` prefix and no rgb link style — whatever the id field's
`flag_link_property` and `flag_implicit` are (first conjunct, flags
unconstrained); on the normal loop path, by contrast, a rendered
link-property field gets the `@`-prefixed rgb-styled label (second
conjunct). -/
theorem id_fallback_plain_label :
    (∀ (cfg : Cfg) (shape : List ShapeElement) (fields : List (Option Value))
        (fld : ShapeElement) (value : Option Value),
      cfg.implicit_properties = false →
      (∀ f ∈ shape, f.flag_implicit = true) →
      (shape.zip fields).find? (fun p => p.1.name == "id") = some (fld, value) →
      Value.format cfg (Value.object shape fields) =
        Event.openObject (type_name_of shape fields) ::
          (Event.object_field fld.name LabelStyle.lightBlueBold ::
            (OptionValue.format cfg value ++ [Event.comma, Event.closeObject])))
    ∧ (∀ (cfg : Cfg) (fld : ShapeElement) (fs : List ShapeElement)
        (v : Option Value) (vs : List (Option Value)),
      (fld.flag_implicit = false ∨ cfg.implicit_properties = true) →
      fld.flag_link_property = true →
      (objectLoop cfg (fld :: fs) (v :: vs)).1 =
        Event.object_field ("@" ++ fld.name) LabelStyle.linkRgbBold ::
          (OptionValue.format cfg v ++ [Event.comma] ++ (objectLoop cfg fs vs).1)) := by
  constructor
  · intro cfg shape fields fld value hip himp hfind
    have hloop := objectLoop_all_implicit cfg hip shape fields himp
    have heq := idFallback_of_find cfg shape fields fld value hfind
    simp [Value.format, hloop, heq]
  · intro cfg fld fs v vs hvis hlink
    rcases hvis with hvis | hvis <;> simp [objectLoop, fieldLabel, hvis, hlink]

/-- Witness for C10: a concrete id field that is both implicit and a
link property is still rendered by the fallback with the bare plain
label; and a concrete rendered link-property field on the normal path
gets the `@`-prefixed rgb label. -/
theorem id_fallback_plain_label_witness :
    ((⟨"id", true, true⟩ : ShapeElement).flag_link_property = true)
    ∧ ((⟨none, false, false⟩ : Cfg).implicit_properties = false)
    ∧ (∀ f ∈ ([⟨"id", true, true⟩] : List ShapeElement), f.flag_implicit = true)
    ∧ ((([⟨"id", true, true⟩] : List ShapeElement).zip
          [some Value.nothing]).find? (fun p => p.1.name == "id") =
        some (⟨"id", true, true⟩, some Value.nothing))
    ∧ (Value.format ⟨none, false, false⟩
          (Value.object [⟨"id", true, true⟩] [some Value.nothing]) =
        Event.openObject (type_name_of [⟨"id", true, true⟩] [some Value.nothing]) ::
          (Event.object_field "id" LabelStyle.lightBlueBold ::
            (OptionValue.format ⟨none, false, false⟩ (some Value.nothing) ++
              [Event.comma, Event.closeObject])))
    ∧ ((⟨"lp", false, true⟩ : ShapeElement).flag_implicit = false)
    ∧ ((objectLoop ⟨none, false, false⟩ [⟨"lp", false, true⟩] [some Value.nothing]).1 =
        Event.object_field ("@" ++ "lp") LabelStyle.linkRgbBold ::
          (OptionValue.format ⟨none, false, false⟩ (some Value.nothing) ++
            [Event.comma] ++ (objectLoop ⟨none, false, false⟩ [] []).1)) :=
  ⟨rfl, rfl, by decide, rfl,
   (id_fallback_plain_label).1 ⟨none, false, false⟩ [⟨"id", true, true⟩]
     [some Value.nothing] ⟨"id", true, true⟩ (some Value.nothing) rfl (by decide) rfl,
   rfl,
   (id_fallback_plain_label).2 ⟨none, false, false⟩ ⟨"lp", false, true⟩ []
     (some Value.nothing) [] (Or.inl rfl) rfl⟩

end EdgedbPrint
